import Mathlib

/-!
Verification of the WaveNet vocoder wrapper (models/wavenet.py): configuration
validation at construction, the loss driver's target handling, the label
transforms, the incremental generation driver's control flow and buffer
lifecycle, and a spec-level model of the dilated convolution stack's parallel
and incremental execution modes.
-/

namespace VocoderWavenet

/-- Modelled from the spec: the helper is_mulaw_quantize imported from the
wavenet_vocoder util module (not under src); true exactly for the quantized
categorical encoding string. -/
def is_mulaw_quantize (s : String) : Bool := s == "mulaw-quantize"

/-- Modelled from the spec: is_scalar_input from the wavenet_vocoder util module
(not under src); the scalar encodings are raw amplitude and
companded-and-rescaled mu-law. -/
def is_scalar_input (s : String) : Bool := s == "raw" || s == "mulaw"

/-- The training criterion selected at construction (wavenet.py, __init__,
lines 127-139). -/
inductive Criterion where
  | crossEntropy
  | discretizedMixLogistic
  | mixGaussian
deriving DecidableEq

/-- Construction-time criterion selection, WaveNet.__init__ lines 127-139:
cross entropy for the quantized categorical encoding; otherwise dispatch on
output_distribution, raising RuntimeError for unsupported values. -/
def initCriterion (input_type output_distribution : String) : Except String Criterion :=
  if is_mulaw_quantize input_type then Except.ok Criterion.crossEntropy
  else if output_distribution == "Logistic" then Except.ok Criterion.discretizedMixLogistic
  else if output_distribution == "Normal" then Except.ok Criterion.mixGaussian
  else Except.error ("Not supported output distribution type: " ++ output_distribution)

/-- Whether get_x_from_dist (lines 317-347) raises for the given scalar-input
flag and distribution string: only the scalar branch checks the distribution
string (AssertionError); the categorical branch never consults it. -/
def getXFromDistRaises (scalar_input : Bool) (distrib : String) : Bool :=
  scalar_input && !(distrib == "Logistic" || distrib == "Normal")

/-- label_2_float (line 349-350): 2 * x / (n_classes - 1) - 1. -/
def label_2_float (x n_classes : ℚ) : ℚ := 2 * x / (n_classes - 1) - 1

/-- float_2_label (line 352-353): (x + 1) * (n_classes - 1) / 2. -/
def float_2_label (x n_classes : ℚ) : ℚ := (x + 1) * (n_classes - 1) / 2

/-- train_step (lines 220-240): computes the loss, performs the optimizer step
(external side effect), and returns the scalar loss together with an empty
auxiliary metric mapping. -/
def train_step (lossVal : ℚ) : ℚ × List (String × ℚ) := (lossVal, [])

/-- validation_losses (lines 242-253): a mapping with the single entry
"nll_loss" bound to the loss value. -/
def validation_losses (lossVal : ℚ) : List (String × ℚ) := [("nll_loss", lossVal)]

/-- The encoded network input produced by the loss driver (lines 191-211),
for a batch of one sequence: a scalar sequence or a one-hot label sequence. -/
inductive ModelInput where
  | scalar (xs : List ℚ)
  | onehot (ls : List ℕ)
deriving DecidableEq

/-- The target sequence handed to the criterion (lines 189-216): scalar
amplitudes for the mixture criteria, integer labels for cross entropy. -/
inductive Targets where
  | scalar (xs : List ℚ)
  | labels (ls : List ℕ)
deriving DecidableEq

/-- Length of a target sequence. -/
def targetsLen : Targets → ℕ
  | Targets.scalar xs => xs.length
  | Targets.labels ls => ls.length

/-- Input encoding performed by loss (lines 191-211) on the waveform, with the
external mu-law companding transform abstracted as compand : ℚ → ℕ. -/
def encodeWave (compand : ℚ → ℕ) (q : ℚ) (it : String) (w : List ℚ) :
    Except String ModelInput :=
  if it == "mulaw" || it == "mulaw-quantize" then
    if it == "mulaw" then
      Except.ok (ModelInput.scalar (w.map fun a => label_2_float (compand a : ℚ) q))
    else Except.ok (ModelInput.onehot (w.map compand))
  else if it == "raw" then Except.ok (ModelInput.scalar w)
  else Except.error ("Not supported input type: " ++ it)

/-- Target encoding performed by loss: the target is the waveform shifted by
one sample (line 189), companded and rescaled per the input encoding. -/
def encodeTargets (compand : ℚ → ℕ) (q : ℚ) (it : String) (w : List ℚ) :
    Except String Targets :=
  if it == "mulaw" || it == "mulaw-quantize" then
    if it == "mulaw" then
      Except.ok (Targets.scalar ((w.drop 1).map fun a => label_2_float (compand a : ℚ) q))
    else Except.ok (Targets.labels ((w.drop 1).map compand))
  else if it == "raw" then Except.ok (Targets.scalar (w.drop 1))
  else Except.error ("Not supported input type: " ++ it)

/-- The loss driver (lines 179-218): encode the input and the shifted target,
run the forward pass, drop the final output timestep, and apply the configured
criterion. The forward pass and the criterion are the external model and loss
modules, abstracted as function parameters. -/
def lossRun (compand : ℚ → ℕ) (q : ℚ) (it : String) (K : Criterion)
    (forward : ModelInput → List ℚ) (crit : Criterion → List ℚ → Targets → ℚ)
    (w : List ℚ) : Except String ℚ :=
  match encodeWave compand q it w, encodeTargets compand q it w with
  | Except.ok inp, Except.ok tgts => Except.ok (crit K ((forward inp).dropLast) tgts)
  | Except.error e, _ => Except.error e
  | _, Except.error e => Except.error e

/-- Claim C2 fails as stated: with the quantized categorical input encoding,
an unsupported output distribution is accepted silently at construction (the
criterion branch never checks it), and generate's sampling step never consults
the distribution string on the categorical path, so no error is raised at all. -/
theorem C2_counterexample :
    initCriterion "mulaw-quantize" "Garbage" = Except.ok Criterion.crossEntropy ∧
      getXFromDistRaises (is_scalar_input "mulaw-quantize") "Garbage" = false := by
  constructor <;> rfl

/-- Claim C2 amended: for scalar input encodings an unsupported output
distribution raises at construction; and whenever construction succeeds, no
generate step can raise the unsupported-distribution error from inside the
timestep loop. -/
theorem C2_amended (dist it : String)
    (hdist : dist ≠ "Logistic" ∧ dist ≠ "Normal") :
    (is_scalar_input it = true →
      initCriterion it dist =
        Except.error ("Not supported output distribution type: " ++ dist)) ∧
    (∀ K, initCriterion it dist = Except.ok K →
      getXFromDistRaises (is_scalar_input it) dist = false) := by
  obtain ⟨h1, h2⟩ := hdist
  have hd1 : (dist == "Logistic") = false := by
    simp [h1]
  have hd2 : (dist == "Normal") = false := by
    simp [h2]
  constructor
  · intro hsc
    have : it = "raw" ∨ it = "mulaw" := by
      simpa [is_scalar_input] using hsc
    rcases this with h | h <;> subst h <;>
      simp [initCriterion, is_mulaw_quantize, hd1, hd2]
  · intro K hK
    by_cases hq : is_mulaw_quantize it = true
    · have : it = "mulaw-quantize" := by simpa [is_mulaw_quantize] using hq
      subst this
      simp [getXFromDistRaises, is_scalar_input]
    · exfalso
      simp only [initCriterion, hq, Bool.false_eq_true, if_false, hd1, hd2] at hK
      exact Except.noConfusion hK

/-- Claim C4 fails as stated: train_step returns an empty auxiliary metric
mapping, so it contains no negative log-likelihood entry. -/
theorem C4_counterexample : ¬ ∃ p ∈ (train_step 0).2, p.1 = "nll_loss" := by
  simp [train_step]

/-- Claim C4 amended: validation_losses returns a mapping containing the
negative log-likelihood entry bound to the loss value, while train_step
returns the scalar loss with an empty auxiliary mapping. -/
theorem C4_amended (l : ℚ) :
    (train_step l).1 = l ∧ (train_step l).2 = [] ∧
      ("nll_loss", l) ∈ validation_losses l :=
  ⟨rfl, rfl, by simp [validation_losses]⟩

/-- Claim C6: for x in the amplitude range [-1, 1] and n_classes > 1, applying
float_2_label then label_2_float recovers x exactly (hence within quantization
error), and the two affine transforms are mutual inverses. -/
theorem C6_label_roundtrip (x y n : ℚ) (hn : 1 < n) (hx1 : -1 ≤ x) (hx2 : x ≤ 1) :
    label_2_float (float_2_label x n) n = x ∧
      float_2_label (label_2_float y n) n = y := by
  have h : n - 1 ≠ 0 := by
    intro h
    rw [sub_eq_zero] at h
    exact absurd h.symm (ne_of_lt hn)
  constructor <;>
    (unfold label_2_float float_2_label
     field_simp
     try ring)

/-- Witness for C6 at x = 1/2, y = 1/3, n_classes = 256. -/
theorem C6_label_roundtrip_witness :
    (1 : ℚ) < 256 ∧ -1 ≤ (1/2 : ℚ) ∧ (1/2 : ℚ) ≤ 1 ∧
      (label_2_float (float_2_label (1/2) 256) 256 = 1/2 ∧
        float_2_label (label_2_float (1/3) 256) 256 = 1/3) :=
  ⟨by norm_num, by norm_num, by norm_num,
    C6_label_roundtrip (1/2) (1/3) 256 (by norm_num) (by norm_num) (by norm_num)⟩

/-- Witness for the amended C2 at dist = "Garbage", it = "raw". -/
theorem C2_amended_witness :
    (("Garbage" : String) ≠ "Logistic" ∧ ("Garbage" : String) ≠ "Normal") ∧
      ((is_scalar_input "raw" = true →
        initCriterion "raw" "Garbage" =
          Except.error ("Not supported output distribution type: " ++ "Garbage")) ∧
      (∀ K, initCriterion "raw" "Garbage" = Except.ok K →
        getXFromDistRaises (is_scalar_input "raw") "Garbage" = false)) :=
  ⟨by decide, C2_amended "Garbage" "raw" (by decide)⟩

/-- seq_len selection in generate (lines 267-269): 22050 timesteps during
training (the first second only), otherwise the upsampled conditioning length. -/
def genSeqLen (training : Bool) (upLen : ℕ) : ℕ :=
  if training then 22050 else upLen

/-- clear_buffer (called at lines 263 and 312): resets every per-block cache
to the cleared state, whatever the incoming state was. -/
def clearBuffer {σ : Type} (emptyBuf : σ) (_buf : σ) : σ := emptyBuf

/-- Modelled from the spec: the per-timestep loop of generate (lines 279-299)
over a buffer state, with the stack-and-sampler computation of one timestep
abstracted as stepFn. The conditioning access spectrograms[:, t, :] (line 281)
requires t < upLen; a timestep index beyond the upsampled length is an index
error raised mid-loop, leaving the buffer state as of that step. -/
def genLoop {σ : Type} (stepFn : σ → ℕ → ℚ × σ) (upLen : ℕ) :
    ℕ → ℕ → σ → List ℚ → Except String (List ℚ) × σ
  | _, 0, buf, acc => (Except.ok acc, buf)
  | t, n + 1, buf, acc =>
    if t < upLen then
      genLoop stepFn upLen (t + 1) n (stepFn buf t).2 (acc ++ [(stepFn buf t).1])
    else (Except.error "index out of range", buf)

/-- The buffer state after n incremental timesteps starting at time t. -/
def genSteps {σ : Type} (stepFn : σ → ℕ → ℚ × σ) : ℕ → ℕ → σ → σ
  | _, 0, buf => buf
  | t, n + 1, buf => genSteps stepFn (t + 1) n (stepFn buf t).2

/-- The samples produced by n incremental timesteps starting at time t. -/
def genOuts {σ : Type} (stepFn : σ → ℕ → ℚ × σ) : ℕ → ℕ → σ → List ℚ
  | _, 0, _ => []
  | t, n + 1, buf => (stepFn buf t).1 :: genOuts stepFn (t + 1) n (stepFn buf t).2

/-- generate (lines 255-315): clear the caches (line 263), run the incremental
loop, post-process per input encoding (lines 300-311; the argmax/label/decode
transforms abstracted as post), and clear the caches again (line 312). The
unsupported-input-type error at lines 308-311 is raised after the loop and
before the final clear_buffer, so on that path the loop's final buffer state is
left in place. -/
def generateRun {σ : Type} (emptyBuf : σ) (stepFn : σ → ℕ → ℚ × σ)
    (post : String → List ℚ → List ℚ) (it : String) (training : Bool)
    (upLen : ℕ) (buf0 : σ) : Except String (List ℚ) × σ :=
  match genLoop stepFn upLen 0 (genSeqLen training upLen) (clearBuffer emptyBuf buf0) [] with
  | (Except.error e, buf) => (Except.error e, buf)
  | (Except.ok out, buf) =>
    if it == "mulaw" || it == "mulaw-quantize" then
      (Except.ok (post it out), clearBuffer emptyBuf buf)
    else if it == "raw" then (Except.ok out, clearBuffer emptyBuf buf)
    else (Except.error ("Not supported input type: " ++ it), buf)

/-- When every timestep index stays below the upsampled length, the loop
completes, appending its samples and advancing the buffer state. -/
theorem genLoop_ok {σ : Type} (stepFn : σ → ℕ → ℚ × σ) (upLen : ℕ) :
    ∀ n t buf acc, t + n ≤ upLen →
      genLoop stepFn upLen t n buf acc =
        (Except.ok (acc ++ genOuts stepFn t n buf), genSteps stepFn t n buf) := by
  intro n
  induction n with
  | zero => intro t buf acc _; simp [genLoop, genOuts, genSteps]
  | succ n ih =>
    intro t buf acc h
    have ht : t < upLen := by omega
    rw [genLoop, if_pos ht, ih (t + 1) (stepFn buf t).2 (acc ++ [(stepFn buf t).1]) (by omega)]
    simp [genOuts, genSteps]

/-- Each timestep contributes exactly one sample. -/
theorem genOuts_length {σ : Type} (stepFn : σ → ℕ → ℚ × σ) :
    ∀ n t buf, (genOuts stepFn t n buf).length = n := by
  intro n
  induction n with
  | zero => intro t buf; rfl
  | succ n ih => intro t buf; simp [genOuts, ih]

/-- Claim C3 fails as stated: with the unsupported input encoding "bogus" and a
nonempty conditioning sequence, generate performs per-timestep work (the buffer
records the step the loop executed) and raises the unsupported-input-type error
only afterwards, during post-processing. -/
theorem C3_counterexample :
    generateRun ([] : List ℚ) (fun buf t => ((0 : ℚ), buf ++ [(t : ℚ)])) (fun _ l => l)
        "bogus" false 1 [] =
      (Except.error "Not supported input type: bogus", [(0 : ℚ)]) ∧
      [(0 : ℚ)] ≠ ([] : List ℚ) :=
  ⟨rfl, by decide⟩

/-- Claim C3 amended: for an unsupported input encoding, loss raises before the
model forward pass (the result is the error, for every forward function and
criterion), while generate raises the same error only after completing all
seq_len timesteps of the sampling loop, before returning. -/
theorem C3_amended (it : String)
    (hit : it ≠ "mulaw" ∧ it ≠ "mulaw-quantize" ∧ it ≠ "raw") :
    (∀ (compand : ℚ → ℕ) (q : ℚ) (K : Criterion) (forward : ModelInput → List ℚ)
        (crit : Criterion → List ℚ → Targets → ℚ) (w : List ℚ),
      lossRun compand q it K forward crit w =
        Except.error ("Not supported input type: " ++ it)) ∧
    (∀ (σ : Type) (emptyBuf : σ) (stepFn : σ → ℕ → ℚ × σ)
        (post : String → List ℚ → List ℚ) (upLen : ℕ) (buf0 : σ),
      generateRun emptyBuf stepFn post it false upLen buf0 =
        (Except.error ("Not supported input type: " ++ it),
          genSteps stepFn 0 upLen emptyBuf)) := by
  obtain ⟨h1, h2, h3⟩ := hit
  have e1 : (it == "mulaw") = false := by simp [h1]
  have e2 : (it == "mulaw-quantize") = false := by simp [h2]
  have e3 : (it == "raw") = false := by simp [h3]
  constructor
  · intro compand q K forward crit w
    simp [lossRun, encodeWave, encodeTargets, e1, e2, e3]
  · intro σ emptyBuf stepFn post upLen buf0
    rw [generateRun, genSeqLen]
    simp only [Bool.false_eq_true, if_false]
    rw [genLoop_ok stepFn upLen upLen 0 (clearBuffer emptyBuf buf0) [] (by omega)]
    simp [clearBuffer, e1, e2, e3]

/-- Witness for the amended C3 at it = "bogus", with a buffer-recording step
function over upLen = 2. -/
theorem C3_amended_witness :
    (("bogus" : String) ≠ "mulaw" ∧ ("bogus" : String) ≠ "mulaw-quantize" ∧
        ("bogus" : String) ≠ "raw") ∧
      generateRun ([] : List ℚ) (fun buf t => ((0 : ℚ), buf ++ [(t : ℚ)])) (fun _ l => l)
          "bogus" false 2 [] =
        (Except.error ("Not supported input type: " ++ "bogus"),
          genSteps (fun buf t => ((0 : ℚ), buf ++ [(t : ℚ)])) 0 2 ([] : List ℚ)) :=
  ⟨by decide,
    (C3_amended "bogus" (by decide)).2 (List ℚ) [] (fun buf t => ((0 : ℚ), buf ++ [(t : ℚ)]))
      (fun _ l => l) 2 []⟩

/-- Claim C9 fails as stated: a generate call on a valid configuration, with
training = true and an upsampled conditioning length shorter than 22050,
aborts mid-loop on the conditioning index error before the final clear_buffer,
so the per-block caches keep the loop's state instead of being reset. -/
theorem C9_counterexample :
    (generateRun ([] : List ℚ) (fun buf t => ((0 : ℚ), buf ++ [(t : ℚ)])) (fun _ l => l)
        "mulaw-quantize" true 3 [(5 : ℚ)]).2 = [(0 : ℚ), 1, 2] ∧
      [(0 : ℚ), 1, 2] ≠ ([] : List ℚ) :=
  ⟨rfl, by decide⟩

/-- Case split for generateRun when the incremental loop errors mid-way. -/
theorem generateRun_error {σ : Type} (emptyBuf : σ) (stepFn : σ → ℕ → ℚ × σ)
    (post : String → List ℚ → List ℚ) (it : String) (training : Bool)
    (upLen : ℕ) (buf0 : σ) (e : String) (buf : σ)
    (h : genLoop stepFn upLen 0 (genSeqLen training upLen) (clearBuffer emptyBuf buf0) []
        = (Except.error e, buf)) :
    generateRun emptyBuf stepFn post it training upLen buf0 = (Except.error e, buf) := by
  unfold generateRun
  rw [h]

/-- Case split for generateRun when the incremental loop completes. -/
theorem generateRun_okCase {σ : Type} (emptyBuf : σ) (stepFn : σ → ℕ → ℚ × σ)
    (post : String → List ℚ → List ℚ) (it : String) (training : Bool)
    (upLen : ℕ) (buf0 : σ) (out : List ℚ) (buf : σ)
    (h : genLoop stepFn upLen 0 (genSeqLen training upLen) (clearBuffer emptyBuf buf0) []
        = (Except.ok out, buf)) :
    generateRun emptyBuf stepFn post it training upLen buf0 =
      (if it == "mulaw" || it == "mulaw-quantize" then (Except.ok (post it out), emptyBuf)
       else if it == "raw" then (Except.ok out, emptyBuf)
       else (Except.error ("Not supported input type: " ++ it), buf)) := by
  unfold generateRun
  rw [h]
  rfl

/-- Claim C9 amended: every generate call clears the caches before its first
timestep, so its behaviour is independent of the incoming cache state; and on
every run that returns successfully the caches are reset after the final
timestep, so no cache state survives a completed generation. -/
theorem C9_amended {σ : Type} (emptyBuf : σ) (stepFn : σ → ℕ → ℚ × σ)
    (post : String → List ℚ → List ℚ) (it : String) (training : Bool)
    (upLen : ℕ) (buf0 buf0' : σ) :
    generateRun emptyBuf stepFn post it training upLen buf0 =
      generateRun emptyBuf stepFn post it training upLen buf0' ∧
    (∀ out, (generateRun emptyBuf stepFn post it training upLen buf0).1 = Except.ok out →
      (generateRun emptyBuf stepFn post it training upLen buf0).2 = emptyBuf) := by
  refine ⟨rfl, ?_⟩
  intro out hout
  rcases hr : genLoop stepFn upLen 0 (genSeqLen training upLen)
      (clearBuffer emptyBuf buf0) [] with ⟨res, buf⟩
  rcases res with e | o
  · rw [generateRun_error emptyBuf stepFn post it training upLen buf0 e buf hr] at hout
    exact Except.noConfusion hout
  · rw [generateRun_okCase emptyBuf stepFn post it training upLen buf0 o buf hr] at hout ⊢
    by_cases hb : (it == "mulaw" || it == "mulaw-quantize") = true
    · rw [if_pos hb]
    · rw [if_neg hb] at hout ⊢
      by_cases hraw : (it == "raw") = true
      · rw [if_pos hraw]
      · rw [if_neg hraw] at hout
        exact Except.noConfusion hout

/-- Witness for the amended C9: a successful raw-mode generation leaves the
caches cleared. -/
theorem C9_amended_witness :
    (generateRun ([] : List ℚ) (fun buf t => ((0 : ℚ), buf ++ [(t : ℚ)])) (fun _ l => l)
        "raw" false 2 [(7 : ℚ)]).2 = ([] : List ℚ) :=
  (C9_amended ([] : List ℚ) (fun buf t => ((0 : ℚ), buf ++ [(t : ℚ)])) (fun _ l => l)
      "raw" false 2 [(7 : ℚ)] []).2 [(0 : ℚ), 0] rfl

/-- Claim C10 fails as stated: with training = true and an upsampled
conditioning length of 10, the loop does not run 22050 timesteps; it aborts
with an index error after exhausting the 10 conditioning frames, and no
waveform is returned. -/
theorem C10_counterexample :
    generateRun ([] : List ℚ) (fun buf t => ((0 : ℚ), buf ++ [(t : ℚ)])) (fun _ l => l)
        "mulaw-quantize" true 10 [] =
      (Except.error "index out of range",
        [(0 : ℚ), 1, 2, 3, 4, 5, 6, 7, 8, 9]) := rfl

/-- Claim C10 amended: with training = false the loop runs exactly as many
timesteps as the upsampled conditioning length; with training = true it
attempts 22050 timesteps, which succeeds (returning 22050 samples per batch
element) exactly when the upsampled length is at least 22050. -/
theorem C10_amended {σ : Type} (emptyBuf : σ) (stepFn : σ → ℕ → ℚ × σ)
    (post : String → List ℚ → List ℚ) (it : String) (upLen : ℕ) (buf0 : σ)
    (hit : it = "raw" ∨ it = "mulaw" ∨ it = "mulaw-quantize")
    (hpost : ∀ s l, (post s l).length = l.length) :
    (∃ out, generateRun emptyBuf stepFn post it false upLen buf0 =
        (Except.ok out, emptyBuf) ∧ out.length = upLen) ∧
    (22050 ≤ upLen →
      ∃ out, generateRun emptyBuf stepFn post it true upLen buf0 =
        (Except.ok out, emptyBuf) ∧ out.length = 22050) := by
  constructor
  · have hloop : genLoop stepFn upLen 0 (genSeqLen false upLen) (clearBuffer emptyBuf buf0) []
        = (Except.ok ([] ++ genOuts stepFn 0 upLen (clearBuffer emptyBuf buf0)),
            genSteps stepFn 0 upLen (clearBuffer emptyBuf buf0)) :=
      genLoop_ok stepFn upLen upLen 0 (clearBuffer emptyBuf buf0) [] (by omega)
    have hcase := generateRun_okCase emptyBuf stepFn post it false upLen buf0 _ _ hloop
    rcases hit with h | h | h <;> subst h
    · exact ⟨_, by rw [hcase]; rfl, by simp [genOuts_length]⟩
    · exact ⟨_, by rw [hcase]; rfl, by simp [hpost, genOuts_length]⟩
    · exact ⟨_, by rw [hcase]; rfl, by simp [hpost, genOuts_length]⟩
  · intro hlen
    have hloop : genLoop stepFn upLen 0 (genSeqLen true upLen) (clearBuffer emptyBuf buf0) []
        = (Except.ok ([] ++ genOuts stepFn 0 22050 (clearBuffer emptyBuf buf0)),
            genSteps stepFn 0 22050 (clearBuffer emptyBuf buf0)) :=
      genLoop_ok stepFn upLen 22050 0 (clearBuffer emptyBuf buf0) [] (by omega)
    have hcase := generateRun_okCase emptyBuf stepFn post it true upLen buf0 _ _ hloop
    rcases hit with h | h | h <;> subst h
    · exact ⟨_, by rw [hcase]; rfl, by simp [genOuts_length]⟩
    · exact ⟨_, by rw [hcase]; rfl, by simp [hpost, genOuts_length]⟩
    · exact ⟨_, by rw [hcase]; rfl, by simp [hpost, genOuts_length]⟩

/-- Witness for the amended C10 at it = "raw", upLen = 3. -/
theorem C10_amended_witness :
    (("raw" : String) = "raw" ∨ ("raw" : String) = "mulaw" ∨
        ("raw" : String) = "mulaw-quantize") ∧
      (∃ out, generateRun ([] : List ℚ) (fun buf t => ((0 : ℚ), buf ++ [(t : ℚ)]))
          (fun _ l => l) "raw" false 3 [] = (Except.ok out, ([] : List ℚ)) ∧
          out.length = 3) :=
  ⟨Or.inl rfl,
    (C10_amended ([] : List ℚ) (fun buf t => ((0 : ℚ), buf ++ [(t : ℚ)])) (fun _ l => l)
        "raw" 3 [] (Or.inl rfl) (fun _ _ => rfl)).1⟩

/-- Value of a target sequence at index i (labels cast to ℚ). -/
def targetsGet : Targets → ℕ → ℚ
  | Targets.scalar xs, i => xs.getD i 0
  | Targets.labels ls, i => (ls.getD i 0 : ℚ)

/-- The encoding the loss driver applies to a single target sample: companded
and rescaled for "mulaw", a companded label for "mulaw-quantize", the raw
amplitude otherwise. -/
def encodeSample (compand : ℚ → ℕ) (q : ℚ) (it : String) (a : ℚ) : ℚ :=
  if it == "mulaw" then label_2_float (compand a : ℚ) q
  else if it == "mulaw-quantize" then (compand a : ℚ)
  else a

/-- Claim C5: the loss driver hands the criterion all output timesteps except
the final one, paired so that output position t is scored against (the
encoding of) waveform sample t+1, and the criterion is exactly cross entropy
for the quantized categorical encoding and a mixture negative log-likelihood
otherwise; the returned value is that scalar. -/
theorem C5_loss_shift (compand : ℚ → ℕ) (q : ℚ) (it od : String) (K : Criterion)
    (forward : ModelInput → List ℚ) (crit : Criterion → List ℚ → Targets → ℚ)
    (w : List ℚ)
    (hit : it = "mulaw" ∨ it = "mulaw-quantize" ∨ it = "raw")
    (hK : initCriterion it od = Except.ok K)
    (hlen : ∀ inp, (forward inp).length = w.length) :
    ∃ inp tgts,
      encodeWave compand q it w = Except.ok inp ∧
      lossRun compand q it K forward crit w =
        Except.ok (crit K ((forward inp).dropLast) tgts) ∧
      ((forward inp).dropLast).length = w.length - 1 ∧
      targetsLen tgts = w.length - 1 ∧
      (∀ i, i < w.length - 1 →
        targetsGet tgts i = encodeSample compand q it (w.getD (i + 1) 0)) ∧
      (K = Criterion.crossEntropy ↔ it = "mulaw-quantize") := by
  rcases hit with h | h | h <;> subst h
  · -- "mulaw"
    have hKv : K ≠ Criterion.crossEntropy := by
      unfold initCriterion at hK
      rw [if_neg (by decide : ¬ is_mulaw_quantize "mulaw" = true)] at hK
      by_cases h1 : (od == "Logistic") = true
      · rw [if_pos h1] at hK
        injection hK with hK
        subst hK
        decide
      · rw [if_neg h1] at hK
        by_cases h2 : (od == "Normal") = true
        · rw [if_pos h2] at hK
          injection hK with hK
          subst hK
          decide
        · rw [if_neg h2] at hK
          exact Except.noConfusion hK
    refine ⟨ModelInput.scalar (w.map fun a => label_2_float (compand a : ℚ) q),
      Targets.scalar ((w.drop 1).map fun a => label_2_float (compand a : ℚ) q),
      rfl, rfl, ?_, ?_, ?_, ?_⟩
    · rw [List.length_dropLast, hlen]
    · simp [targetsLen, List.length_drop]
    · intro i hi
      have h1 : i < ((w.drop 1).map fun a => label_2_float (compand a : ℚ) q).length := by
        simp only [List.length_map, List.length_drop]
        omega
      have h2 : i + 1 < w.length := by omega
      simp only [targetsGet, encodeSample]
      rw [List.getD_eq_getElem _ _ h1, List.getElem_map, List.getElem_drop,
        List.getD_eq_getElem _ _ h2, if_pos (by decide : (("mulaw" : String) == "mulaw") = true)]
      simp only [Nat.add_comm 1 i]
    · simp [hKv]
  · -- "mulaw-quantize"
    have hKv : K = Criterion.crossEntropy := by
      unfold initCriterion at hK
      rw [if_pos (by decide : is_mulaw_quantize "mulaw-quantize" = true)] at hK
      injection hK with hK
      exact hK.symm
    refine ⟨ModelInput.onehot (w.map compand),
      Targets.labels ((w.drop 1).map compand),
      rfl, rfl, ?_, ?_, ?_, ?_⟩
    · rw [List.length_dropLast, hlen]
    · simp [targetsLen, List.length_drop]
    · intro i hi
      have h1 : i < ((w.drop 1).map compand).length := by
        simp only [List.length_map, List.length_drop]
        omega
      have h2 : i + 1 < w.length := by omega
      simp only [targetsGet, encodeSample]
      rw [List.getD_eq_getElem _ _ h1, List.getElem_map, List.getElem_drop,
        List.getD_eq_getElem _ _ h2,
        if_neg (by decide : ¬ (("mulaw-quantize" : String) == "mulaw") = true),
        if_pos (by decide : (("mulaw-quantize" : String) == "mulaw-quantize") = true)]
      congr 3
      omega
    · simp [hKv]
  · -- "raw"
    have hKv : K ≠ Criterion.crossEntropy := by
      unfold initCriterion at hK
      rw [if_neg (by decide : ¬ is_mulaw_quantize "raw" = true)] at hK
      by_cases h1 : (od == "Logistic") = true
      · rw [if_pos h1] at hK
        injection hK with hK
        subst hK
        decide
      · rw [if_neg h1] at hK
        by_cases h2 : (od == "Normal") = true
        · rw [if_pos h2] at hK
          injection hK with hK
          subst hK
          decide
        · rw [if_neg h2] at hK
          exact Except.noConfusion hK
    refine ⟨ModelInput.scalar w, Targets.scalar (w.drop 1),
      rfl, rfl, ?_, ?_, ?_, ?_⟩
    · rw [List.length_dropLast, hlen]
    · simp [targetsLen, List.length_drop]
    · intro i hi
      have h1 : i < (w.drop 1).length := by
        simp only [List.length_drop]
        omega
      have h2 : i + 1 < w.length := by omega
      simp only [targetsGet, encodeSample]
      rw [List.getD_eq_getElem _ _ h1, List.getElem_drop,
        List.getD_eq_getElem _ _ h2,
        if_neg (by decide : ¬ (("raw" : String) == "mulaw") = true),
        if_neg (by decide : ¬ (("raw" : String) == "mulaw-quantize") = true)]
      congr 1
      omega
    · simp [hKv]

/-- Witness for C5 at it = "mulaw-quantize", od = "Logistic", on a length-3
waveform with a constant forward model and a trivial criterion. -/
theorem C5_loss_shift_witness :
    (("mulaw-quantize" : String) = "mulaw" ∨ ("mulaw-quantize" : String) = "mulaw-quantize" ∨
        ("mulaw-quantize" : String) = "raw") ∧
      initCriterion "mulaw-quantize" "Logistic" = Except.ok Criterion.crossEntropy ∧
      (∃ inp tgts,
        encodeWave (fun _ => 7) 256 "mulaw-quantize" [0, 1/2, 1] = Except.ok inp ∧
        lossRun (fun _ => 7) 256 "mulaw-quantize" Criterion.crossEntropy
            (fun _ => [0, 0, 0]) (fun _ _ _ => 0) [0, 1/2, 1] =
          Except.ok ((fun _ _ _ => (0 : ℚ)) Criterion.crossEntropy
            (((fun _ => [(0 : ℚ), 0, 0]) inp).dropLast) tgts) ∧
        (((fun _ => [(0 : ℚ), 0, 0]) inp).dropLast).length = ([(0 : ℚ), 1/2, 1] : List ℚ).length - 1 ∧
        targetsLen tgts = ([(0 : ℚ), 1/2, 1] : List ℚ).length - 1 ∧
        (∀ i, i < ([(0 : ℚ), 1/2, 1] : List ℚ).length - 1 →
          targetsGet tgts i =
            encodeSample (fun _ => 7) 256 "mulaw-quantize"
              (([(0 : ℚ), 1/2, 1] : List ℚ).getD (i + 1) 0)) ∧
        (Criterion.crossEntropy = Criterion.crossEntropy ↔
          ("mulaw-quantize" : String) = "mulaw-quantize")) :=
  ⟨Or.inr (Or.inl rfl), rfl,
    C5_loss_shift (fun _ => 7) 256 "mulaw-quantize" "Logistic" Criterion.crossEntropy
      (fun _ => [0, 0, 0]) (fun _ _ _ => 0) [0, 1/2, 1]
      (Or.inr (Or.inl rfl)) rfl (fun _ => rfl)⟩

/-- The residual/skip fold of the generate loop body (lines 283-286): starting
from the first_conv output, each conv layer maps the running value and the
conditioning frame to a new value and a skip contribution; skips starts at 0
and accumulates every contribution. -/
def genLoopBodyFold (layers : List (ℝ → ℝ → ℝ × ℝ)) (ct : ℝ) (x1 : ℝ) : ℝ × ℝ :=
  layers.foldl (fun p f => ((f p.1 ct).1, p.2 + (f p.1 ct).2)) (x1, 0)

/-- The pre-activation value the generate loop computes at one timestep
(lines 282-288): the accumulated skips scaled by sqrt(1 / num conv layers).
The configuration strings are parameters the computation never consults. -/
noncomputable def genStepPreact (output_distribution input_type : String)
    (layers : List (ℝ → ℝ → ℝ × ℝ)) (firstConv : ℝ → ℝ) (ct x0 : ℝ) : ℝ :=
  (genLoopBodyFold layers ct (firstConv x0)).2 * Real.sqrt (1 / (layers.length : ℝ))

/-- The per-layer skip contributions of one timestep, as a list. -/
def skipContribs : List (ℝ → ℝ → ℝ × ℝ) → ℝ → ℝ → List ℝ
  | [], _, _ => []
  | f :: fs, ct, x => (f x ct).2 :: skipContribs fs ct (f x ct).1

/-- The skip accumulator of the loop body equals the sum of the per-layer
contributions. -/
theorem genLoopBodyFold_snd (layers : List (ℝ → ℝ → ℝ × ℝ)) (ct : ℝ) :
    ∀ x s, (layers.foldl (fun p f => ((f p.1 ct).1, p.2 + (f p.1 ct).2)) (x, s)).2 =
      s + (skipContribs layers ct x).sum := by
  induction layers with
  | nil => intro x s; simp [skipContribs]
  | cons f fs ih =>
    intro x s
    simp only [List.foldl_cons, skipContribs, List.sum_cons]
    rw [ih]
    ring

/-- Claim C7: in every incremental generation step, the per-block skip
contributions are summed over all conv layers and the sum is scaled by exactly
1/sqrt(number of conv layers); the computation is identical for every output
distribution and input encoding configuration. -/
theorem C7_skip_scaling (od od2 it it2 : String) (layers : List (ℝ → ℝ → ℝ × ℝ))
    (firstConv : ℝ → ℝ) (ct x0 : ℝ) :
    genStepPreact od it layers firstConv ct x0 =
        (skipContribs layers ct (firstConv x0)).sum / Real.sqrt (layers.length : ℝ) ∧
      genStepPreact od it layers firstConv ct x0 =
        genStepPreact od2 it2 layers firstConv ct x0 := by
  constructor
  · unfold genStepPreact genLoopBodyFold
    rw [genLoopBodyFold_snd layers ct (firstConv x0) 0, zero_add,
      one_div, Real.sqrt_inv, ← div_eq_mul_inv]
  · rfl

/-- Mu-law expansion as implemented by the external torchaudio MuLawDecoding
collaborator with quantization_channels q: with mu = q - 1 and
x = 2 l / mu - 1, the decoded amplitude is sign(x) / mu * ((1 + mu)^|x| - 1). -/
noncomputable def muLawDecode (q : ℕ) (l : ℕ) : ℝ :=
  Real.sign (2 * (l : ℝ) / ((q : ℝ) - 1) - 1) / ((q : ℝ) - 1) *
    ((1 + ((q : ℝ) - 1)) ^ |2 * (l : ℝ) / ((q : ℝ) - 1) - 1| - 1)

/-- Any label up to mu decodes into the valid amplitude range. -/
theorem muLawDecode_range (q : ℕ) (hq : 2 ≤ q) (l : ℕ) (hl : l ≤ q - 1) :
    -1 ≤ muLawDecode q l ∧ muLawDecode q l ≤ 1 := by
  have hmu : (1 : ℝ) ≤ (q : ℝ) - 1 := by
    have : (2 : ℝ) ≤ (q : ℝ) := by exact_mod_cast hq
    linarith
  have hmu0 : (0 : ℝ) < (q : ℝ) - 1 := by linarith
  have hlr : (l : ℝ) ≤ (q : ℝ) - 1 := by
    have : (l : ℝ) ≤ ((q - 1 : ℕ) : ℝ) := by exact_mod_cast hl
    have hq1 : ((q - 1 : ℕ) : ℝ) = (q : ℝ) - 1 := by
      have : (1 : ℕ) ≤ q := by omega
      push_cast [Nat.cast_sub this]
      ring
    linarith [hq1 ▸ this]
  set y : ℝ := 2 * (l : ℝ) / ((q : ℝ) - 1) - 1 with hy
  have hyabs : |y| ≤ 1 := by
    rw [abs_le]
    constructor
    · have h0 : (0 : ℝ) ≤ 2 * (l : ℝ) / ((q : ℝ) - 1) := by positivity
      simp only [hy]
      linarith
    · have h1 : 2 * (l : ℝ) / ((q : ℝ) - 1) ≤ 2 := by
        rw [div_le_iff hmu0]
        linarith
      simp only [hy]
      linarith
  have hb : (1 : ℝ) ≤ 1 + ((q : ℝ) - 1) := by linarith
  have hA1 : (1 : ℝ) ≤ (1 + ((q : ℝ) - 1)) ^ |y| := by
    have := Real.rpow_le_rpow_of_exponent_le hb (abs_nonneg y)
    rwa [Real.rpow_zero] at this
  have hA2 : (1 + ((q : ℝ) - 1)) ^ |y| ≤ 1 + ((q : ℝ) - 1) := by
    have := Real.rpow_le_rpow_of_exponent_le hb hyabs
    rwa [Real.rpow_one] at this
  have hc0 : (0 : ℝ) ≤ ((1 + ((q : ℝ) - 1)) ^ |y| - 1) / ((q : ℝ) - 1) := by
    apply div_nonneg _ (le_of_lt hmu0)
    linarith
  have hc1 : ((1 + ((q : ℝ) - 1)) ^ |y| - 1) / ((q : ℝ) - 1) ≤ 1 := by
    rw [div_le_one hmu0]
    linarith
  have hdec : muLawDecode q l = Real.sign y * (((1 + ((q : ℝ) - 1)) ^ |y| - 1) / ((q : ℝ) - 1)) := by
    unfold muLawDecode
    rw [← hy]
    ring
  rcases lt_trichotomy y 0 with hs | hs | hs
  · rw [hdec, Real.sign_of_neg hs]
    constructor <;> nlinarith
  · rw [hdec, hs, Real.sign_zero]
    constructor <;> nlinarith
  · rw [hdec, Real.sign_of_pos hs]
    constructor <;> nlinarith

/-- Modelled from the spec: generate for the quantized categorical encoding
with a batch of one (lines 273-307) -- per timestep the OneHotCategorical
sample is a one-hot vector over out_channels categories, argmax recovers its
category index, and MuLawDecoding expands each label; the category sampled at
step t is abstracted as sampler t. The flattened batch-of-one output is the
list of decoded samples. -/
noncomputable def generateMulawQuantize (q : ℕ) (sampler : ℕ → Fin q) (n : ℕ) : List ℝ :=
  (List.range n).map fun t => muLawDecode q (sampler t)

/-- Claim C8: for one conditioning sequence of upsampled length 10 with
input_type "mulaw-quantize" and quantize_channels 256, generate returns a 1-D
sequence of length 10 whose values lie in [-1, 1] after mu-law decoding,
whatever categories the sampler draws. -/
theorem C8_end_to_end (sampler : ℕ → Fin 256) :
    (generateMulawQuantize 256 sampler 10).length = 10 ∧
      (generateMulawQuantize 256 sampler 10).Forall fun v => -1 ≤ v ∧ v ≤ 1 := by
  constructor
  · simp [generateMulawQuantize]
  · rw [List.forall_iff_forall_mem]
    intro v hv
    simp only [generateMulawQuantize, List.mem_map, List.mem_range] at hv
    obtain ⟨t, _, rfl⟩ := hv
    exact muLawDecode_range 256 (by omega) (sampler t) (by omega)

/-! ### Mode equivalence of the dilated convolution stack (claim C1)

The stack itself lives in the external wavenet_vocoder module (not under src);
the definitions below are modelled from the spec: parallel mode processes the
whole time axis with left zero-padding of (kernel_size-1)*dilation, while
incremental mode keeps a per-block queue of the last (kernel_size-1)*dilation
inputs, appending the newest input and evicting the oldest each timestep. -/

/-- A signal extended with zeros at negative times (the left padding). -/
def xext (x : ℕ → ℚ) : ℤ → ℚ := fun i => if i < 0 then 0 else x i.toNat

/-- Modelled from the spec: parallel-mode dilated causal convolution with
kernel size k and dilation d; output at t sees inputs t, t-d, ..., t-(k-1)d,
zero-padded on the left. -/
def convParallel (k d : ℕ) (w : ℕ → ℚ) (x : ℕ → ℚ) (t : ℕ) : ℚ :=
  ∑ i ∈ Finset.range k, w i * xext x ((t : ℤ) - ((k - 1 - i) * d : ℕ))

/-- Modelled from the spec: one incremental-mode step of the same convolution.
The cache lists the last (k-1)*d inputs oldest first; the taps read positions
0, d, ..., (k-2)d of the cache plus the current input, and the cache is
updated by appending the input and evicting the oldest entry. -/
def convStep (k d : ℕ) (w : ℕ → ℚ) (cache : List ℚ) (xt : ℚ) : ℚ × List ℚ :=
  ((∑ i ∈ Finset.range (k - 1), w i * cache.getD (i * d) 0) + w (k - 1) * xt,
    (cache ++ [xt]).drop 1)

/-- The cleared cache: (k-1)*d zeros (silence seed history). -/
def initCache (k d : ℕ) : List ℚ := List.replicate ((k - 1) * d) 0

/-- The cache contents after the inputs x 0 .. x (t-1) have been pushed. -/
def cacheAt (k d : ℕ) (x : ℕ → ℚ) (t : ℕ) : List ℚ :=
  (List.range ((k - 1) * d)).map fun j : ℕ =>
    xext x ((t : ℤ) - ((k - 1) * d : ℕ) + (j : ℤ))

theorem convStep_snd (k d : ℕ) (w : ℕ → ℚ) (cache : List ℚ) (xt : ℚ) :
    (convStep k d w cache xt).2 = (cache ++ [xt]).drop 1 := rfl

/-- The cleared cache is the time-0 cache: all history is zero padding. -/
theorem cacheAt_zero (k d : ℕ) (x : ℕ → ℚ) : cacheAt k d x 0 = initCache k d := by
  unfold cacheAt initCache
  apply List.eq_replicate.mpr
  refine ⟨by simp, ?_⟩
  intro b hb
  simp only [List.mem_map, List.mem_range] at hb
  obtain ⟨j, hj, rfl⟩ := hb
  unfold xext
  rw [if_pos (by omega : (((0 : ℕ) : ℤ) - ((k - 1) * d : ℕ) + (j : ℤ)) < 0)]

/-- Pushing the input at time t and evicting the oldest entry advances the
cache to time t+1. -/
theorem cacheAt_step (k d : ℕ) (x : ℕ → ℚ) (t : ℕ) :
    (cacheAt k d x t ++ [x t]).drop 1 = cacheAt k d x (t + 1) := by
  have hfB : xext x ((t : ℤ) - ((k - 1) * d : ℕ) + (((k - 1) * d : ℕ) : ℤ)) = x t := by
    have harg : (t : ℤ) - ((k - 1) * d : ℕ) + (((k - 1) * d : ℕ) : ℤ) = (t : ℤ) := by ring
    rw [harg]
    unfold xext
    rw [if_neg (by omega : ¬ (t : ℤ) < 0)]
    simp
  have happ : cacheAt k d x t ++ [x t] =
      (List.range ((k - 1) * d + 1)).map fun j : ℕ =>
        xext x ((t : ℤ) - ((k - 1) * d : ℕ) + (j : ℤ)) := by
    rw [List.range_succ, List.map_append]
    unfold cacheAt
    simp only [List.map_cons, List.map_nil, hfB]
  rw [happ, List.range_succ_eq_map, List.map_cons, List.map_map]
  simp only [List.drop_succ_cons, List.drop_zero]
  unfold cacheAt
  apply List.map_congr_left
  intro j hj
  simp only [Function.comp_apply]
  congr 1
  push_cast
  ring

/-- Incremental-mode output at time t from the time-t cache equals the
parallel-mode output at t. -/
theorem convStep_out (k d : ℕ) (hk : 1 ≤ k) (hd : 1 ≤ d) (w x : ℕ → ℚ) (t : ℕ) :
    (convStep k d w (cacheAt k d x t) (x t)).1 = convParallel k d w x t := by
  obtain ⟨m, rfl⟩ : ∃ m, k = m + 1 := ⟨k - 1, by omega⟩
  unfold convStep convParallel
  simp only [Nat.add_sub_cancel]
  rw [Finset.sum_range_succ]
  congr 1
  · apply Finset.sum_congr rfl
    intro i hi
    have him : i < m := Finset.mem_range.mp hi
    have hlt : i * d < m * d := (Nat.mul_lt_mul_right (by omega : 0 < d)).mpr him
    have hlen : i * d < (cacheAt (m + 1) d x t).length := by
      unfold cacheAt
      simp only [List.length_map, List.length_range, Nat.add_sub_cancel]
      exact hlt
    congr 1
    rw [List.getD_eq_getElem _ _ hlen]
    unfold cacheAt
    simp only [Nat.add_sub_cancel, List.getElem_map, List.getElem_range]
    congr 1
    push_cast [Nat.cast_sub (le_of_lt him)]
    ring
  · congr 1
    have harg : ((m - m) * d : ℕ) = (0 : ℕ) := by rw [Nat.sub_self, Nat.zero_mul]
    rw [harg]
    unfold xext
    rw [if_neg (by omega : ¬ (t : ℤ) - ((0 : ℕ) : ℤ) < 0)]
    simp

/-- Run a stateful step function over a list of inputs, collecting the
per-step outputs and the final state. -/
def runM {σ I O : Type} (step : σ → I → O × σ) : σ → List I → List O × σ
  | s, [] => ([], s)
  | s, i :: is =>
    ((step s i).1 :: (runM step (step s i).2 is).1, (runM step (step s i).2 is).2)

/-- Modelled from the spec: one gated residual block of the dilated stack.
Two dilated convolutions (filter and gate) share kernel size k and dilation d;
the local conditioning frame is added through scalar projections before the
gating nonlinearities (abstracted as actF and actG, tanh and sigmoid in the
source); the gated value feeds a residual projection added back to the block
input and a skip projection. -/
structure Block where
  d : ℕ
  wf : ℕ → ℚ
  wg : ℕ → ℚ
  cf : ℚ
  cg : ℚ
  actF : ℚ → ℚ
  actG : ℚ → ℚ
  wres : ℚ
  wskip : ℚ

/-- Parallel-mode gated activation of a block at time t. -/
def blockGate (k : ℕ) (b : Block) (u c : ℕ → ℚ) (t : ℕ) : ℚ :=
  b.actF (convParallel k b.d b.wf u t + b.cf * c t) *
    b.actG (convParallel k b.d b.wg u t + b.cg * c t)

/-- Parallel-mode residual output of a block (the next block's input). -/
def blockResOut (k : ℕ) (b : Block) (u c : ℕ → ℚ) (t : ℕ) : ℚ :=
  u t + b.wres * blockGate k b u c t

/-- Parallel-mode skip contribution of a block. -/
def blockSkipOut (k : ℕ) (b : Block) (u c : ℕ → ℚ) (t : ℕ) : ℚ :=
  b.wskip * blockGate k b u c t

/-- Incremental-mode step of a block: the state is the pair of filter/gate
caches; the input carries the running signal value, the conditioning frame,
and the skip accumulator, which are threaded to the next block. -/
def blockStep (k : ℕ) (b : Block) (st : List ℚ × List ℚ) (i : ℚ × ℚ × ℚ) :
    (ℚ × ℚ × ℚ) × (List ℚ × List ℚ) :=
  ((i.1 + b.wres * (b.actF ((convStep k b.d b.wf st.1 i.1).1 + b.cf * i.2.1) *
      b.actG ((convStep k b.d b.wg st.2 i.1).1 + b.cg * i.2.1)),
    i.2.1,
    i.2.2 + b.wskip * (b.actF ((convStep k b.d b.wf st.1 i.1).1 + b.cf * i.2.1) *
      b.actG ((convStep k b.d b.wg st.2 i.1).1 + b.cg * i.2.1))),
   ((convStep k b.d b.wf st.1 i.1).2, (convStep k b.d b.wg st.2 i.1).2))

/-- The stream of (signal, conditioning, skip accumulator) triples for m
timesteps starting at time t. -/
def stream3 (u c s : ℕ → ℚ) (t m : ℕ) : List (ℚ × ℚ × ℚ) :=
  (List.range m).map fun j => (u (t + j), c (t + j), s (t + j))

theorem stream3_succ (u c s : ℕ → ℚ) (t m : ℕ) :
    stream3 u c s t (m + 1) = (u t, c t, s t) :: stream3 u c s (t + 1) m := by
  unfold stream3
  rw [List.range_succ_eq_map, List.map_cons, List.map_map]
  simp only [Nat.add_zero]
  congr 1
  apply List.map_congr_left
  intro j hj
  simp only [Function.comp_apply]
  have harg : t + Nat.succ j = t + 1 + j := by omega
  rw [harg]

theorem stream3_congr (u1 u2 c1 c2 s1 s2 : ℕ → ℚ)
    (hu : ∀ t2, u1 t2 = u2 t2) (hc : ∀ t2, c1 t2 = c2 t2) (hs : ∀ t2, s1 t2 = s2 t2)
    (t m : ℕ) : stream3 u1 c1 s1 t m = stream3 u2 c2 s2 t m := by
  unfold stream3
  apply List.map_congr_left
  intro j hj
  rw [hu, hc, hs]

/-- Running a block incrementally over any window of the true signal produces
exactly the parallel-mode residual and skip outputs, and leaves the caches at
the window's end time. -/
theorem blockRun (k : ℕ) (hk : 1 ≤ k) (b : Block) (hd : 1 ≤ b.d) (u c s : ℕ → ℚ) :
    ∀ m t, runM (blockStep k b) (cacheAt k b.d u t, cacheAt k b.d u t)
        (stream3 u c s t m) =
      (stream3 (blockResOut k b u c) c (fun t2 => s t2 + blockSkipOut k b u c t2) t m,
        (cacheAt k b.d u (t + m), cacheAt k b.d u (t + m))) := by
  intro m
  induction m with
  | zero =>
    intro t
    simp [stream3, runM]
  | succ m ih =>
    intro t
    rw [stream3_succ, stream3_succ]
    have hf := convStep_out k b.d hk hd b.wf u t
    have hg := convStep_out k b.d hk hd b.wg u t
    simp only [runM, blockStep, convStep_snd, hf, hg, cacheAt_step]
    rw [ih (t + 1)]
    have hm : t + 1 + m = t + (m + 1) := by omega
    rw [hm]
    unfold blockResOut blockSkipOut blockGate
    simp only []

/-- Incremental-mode step of the whole block list: feed the input through the
blocks in order, threading each block's residual output into the next and
collecting the updated per-block caches. -/
def stackStep (k : ℕ) : List Block → List (List ℚ × List ℚ) → (ℚ × ℚ × ℚ) →
    (ℚ × ℚ × ℚ) × List (List ℚ × List ℚ)
  | [], _, i => (i, [])
  | b :: bs, st, i =>
    ((stackStep k bs st.tail (blockStep k b (st.headD ([], [])) i).1).1,
      (blockStep k b (st.headD ([], [])) i).2 ::
        (stackStep k bs st.tail (blockStep k b (st.headD ([], [])) i).1).2)

/-- The cleared cache set, one filter/gate cache pair per block. -/
def initStacks (k : ℕ) : List Block → List (List ℚ × List ℚ)
  | [] => []
  | b :: bs => (initCache k b.d, initCache k b.d) :: initStacks k bs

/-- Parallel-mode residual signal after a list of blocks. -/
def parResOut (k : ℕ) : List Block → (ℕ → ℚ) → (ℕ → ℚ) → ℕ → ℚ
  | [], u, _, t => u t
  | b :: bs, u, c, t => parResOut k bs (blockResOut k b u c) c t

/-- Parallel-mode sum of the skip contributions of a list of blocks. -/
def parSkipOut (k : ℕ) : List Block → (ℕ → ℚ) → (ℕ → ℚ) → ℕ → ℚ
  | [], _, _, _ => 0
  | b :: bs, u, c, t => blockSkipOut k b u c t + parSkipOut k bs (blockResOut k b u c) c t

theorem stackStep_nil (k : ℕ) (st : List (List ℚ × List ℚ)) (i : ℚ × ℚ × ℚ) :
    stackStep k [] st i = (i, []) := rfl

/-- The empty stack is the identity machine on outputs. -/
theorem runM_stackStep_nil (k : ℕ) (st : List (List ℚ × List ℚ))
    (ins : List (ℚ × ℚ × ℚ)) : (runM (stackStep k []) st ins).1 = ins := by
  induction ins generalizing st with
  | nil => rfl
  | cons i is ih =>
    simp only [runM, stackStep_nil]
    rw [ih]

theorem stackStep_cons2 (k : ℕ) (b : Block) (bs : List Block) (s0 : List ℚ × List ℚ)
    (st : List (List ℚ × List ℚ)) (i : ℚ × ℚ × ℚ) :
    stackStep k (b :: bs) (s0 :: st) i =
      ((stackStep k bs st (blockStep k b s0 i).1).1,
        (blockStep k b s0 i).2 :: (stackStep k bs st (blockStep k b s0 i).1).2) := rfl

/-- Time-major execution of a cons stack factors into running the head block
over the whole stream and then the tail stack over its outputs. -/
theorem runM_stackStep_cons (k : ℕ) (b : Block) (bs : List Block)
    (s0 : List ℚ × List ℚ) (st : List (List ℚ × List ℚ)) (ins : List (ℚ × ℚ × ℚ)) :
    runM (stackStep k (b :: bs)) (s0 :: st) ins =
      ((runM (stackStep k bs) st (runM (blockStep k b) s0 ins).1).1,
        (runM (blockStep k b) s0 ins).2 ::
          (runM (stackStep k bs) st (runM (blockStep k b) s0 ins).1).2) := by
  induction ins generalizing s0 st with
  | nil => simp [runM]
  | cons i is ih =>
    simp only [runM, stackStep_cons2]
    rw [ih]

theorem runM_stackStep_cons_fst (k : ℕ) (b : Block) (bs : List Block)
    (s0 : List ℚ × List ℚ) (st : List (List ℚ × List ℚ)) (ins : List (ℚ × ℚ × ℚ)) :
    (runM (stackStep k (b :: bs)) (s0 :: st) ins).1 =
      (runM (stackStep k bs) st (runM (blockStep k b) s0 ins).1).1 := by
  rw [runM_stackStep_cons]

/-- Running a block incrementally from cleared caches: first components. -/
theorem blockRun_fst (k : ℕ) (hk : 1 ≤ k) (b : Block) (hd : 1 ≤ b.d)
    (u c s : ℕ → ℚ) (m : ℕ) :
    (runM (blockStep k b) (initCache k b.d, initCache k b.d) (stream3 u c s 0 m)).1 =
      stream3 (blockResOut k b u c) c
        (fun t2 => s t2 + blockSkipOut k b u c t2) 0 m := by
  rw [show (initCache k b.d, initCache k b.d) =
      (cacheAt k b.d u 0, cacheAt k b.d u 0) by rw [cacheAt_zero]]
  rw [blockRun k hk b hd u c s m 0]

/-- Running the whole stack incrementally from cleared caches over the true
signal produces, at every timestep, the parallel-mode residual signal and the
parallel-mode accumulated skip sum. -/
theorem stackRun (k : ℕ) (hk : 1 ≤ k) :
    ∀ (bs : List Block), (∀ b ∈ bs, 1 ≤ b.d) →
      ∀ (u c s : ℕ → ℚ) (m : ℕ),
        (runM (stackStep k bs) (initStacks k bs) (stream3 u c s 0 m)).1 =
          stream3 (parResOut k bs u c) c
            (fun t => s t + parSkipOut k bs u c t) 0 m := by
  intro bs
  induction bs with
  | nil =>
    intro _ u c s m
    rw [initStacks, runM_stackStep_nil]
    exact stream3_congr _ _ _ _ _ _ (fun t2 => by simp [parResOut]) (fun t2 => rfl)
      (fun t2 => by simp [parSkipOut]) 0 m
  | cons b bs ih =>
    intro hd u c s m
    have hdb : 1 ≤ b.d := hd b (by simp)
    have hdbs : ∀ b2 ∈ bs, 1 ≤ b2.d := fun b2 h2 => hd b2 (by simp [h2])
    rw [initStacks, runM_stackStep_cons_fst,
      blockRun_fst k hk b hdb u c s m,
      ih hdbs (blockResOut k b u c) c (fun t2 => s t2 + blockSkipOut k b u c t2) m]
    exact stream3_congr _ _ _ _ _ _ (fun t2 => by simp [parResOut]) (fun t2 => rfl)
      (fun t2 => by simp only [parSkipOut]; ring) 0 m

/-- The (signal, conditioning) input stream of the incremental driver. -/
def stream2 (x c : ℕ → ℚ) (t m : ℕ) : List (ℚ × ℚ) :=
  (List.range m).map fun j => (x (t + j), c (t + j))

/-- Incremental-mode step of the full model at one timestep, mirroring the
loop body of generate (lines 282-288) fed with the true historical input: the
pointwise first_conv (f0), the conv-layer traversal with skip accumulation
starting at 0, and the scaling of the skip sum by the constant sc (sqrt(1 /
num layers) in the source, identical in both modes); the step's output is the
pre-activation value x = skips. -/
def modelStep (k : ℕ) (f0 : ℚ → ℚ) (sc : ℚ) (bs : List Block)
    (st : List (List ℚ × List ℚ)) (i : ℚ × ℚ) : ℚ × List (List ℚ × List ℚ) :=
  (sc * (stackStep k bs st (f0 i.1, i.2, 0)).1.2.2, (stackStep k bs st (f0 i.1, i.2, 0)).2)

/-- Parallel-mode pre-activation at time t: the scaled skip sum of the stack
run over the whole first_conv-transformed sequence. -/
def parPreact (k : ℕ) (f0 : ℚ → ℚ) (sc : ℚ) (bs : List Block)
    (x c : ℕ → ℚ) (t : ℕ) : ℚ :=
  sc * parSkipOut k bs (fun t2 => f0 (x t2)) c t

/-- The model machine is the stack machine with inputs pre-transformed and
outputs projected to the scaled skip accumulator. -/
theorem runM_modelStep (k : ℕ) (f0 : ℚ → ℚ) (sc : ℚ) (bs : List Block) :
    ∀ (ins : List (ℚ × ℚ)) (st : List (List ℚ × List ℚ)),
      (runM (modelStep k f0 sc bs) st ins).1 =
        (runM (stackStep k bs) st (ins.map fun i => (f0 i.1, i.2, (0 : ℚ)))).1.map
          (fun o => sc * o.2.2) := by
  intro ins
  induction ins with
  | nil => intro st; rfl
  | cons i is ih =>
    intro st
    simp only [runM, modelStep, List.map_cons]
    rw [ih]

theorem stream2_map (x c : ℕ → ℚ) (f0 : ℚ → ℚ) (t m : ℕ) :
    (stream2 x c t m).map (fun i => (f0 i.1, i.2, (0 : ℚ))) =
      stream3 (fun t2 => f0 (x t2)) c (fun _ => 0) t m := by
  unfold stream2 stream3
  rw [List.map_map]
  apply List.map_congr_left
  intro j hj
  rfl

/-- Claim C1: for every kernel size at least 1, every list of gated residual
blocks with dilations at least 1, every pointwise first_conv, every skip
scaling constant, and every conditioning sequence, running the stack
incrementally one timestep at a time from cleared caches while feeding each
step's true historical input produces exactly the per-timestep pre-activation
outputs of the parallel full-sequence pass. -/
theorem C1_mode_equivalence (k : ℕ) (hk : 1 ≤ k) (bs : List Block)
    (hd : ∀ b ∈ bs, 1 ≤ b.d) (f0 : ℚ → ℚ) (sc : ℚ) (x c : ℕ → ℚ) (m : ℕ) :
    (runM (modelStep k f0 sc bs) (initStacks k bs) (stream2 x c 0 m)).1 =
      (List.range m).map (parPreact k f0 sc bs x c) := by
  rw [runM_modelStep, stream2_map,
    stackRun k hk bs hd (fun t2 => f0 (x t2)) c (fun _ => 0) m]
  unfold stream3
  rw [List.map_map]
  apply List.map_congr_left
  intro j hj
  simp only [Function.comp_apply, parPreact, Nat.zero_add, zero_add]

/-- A concrete single-block configuration for the C1 witness. -/
def blkW : Block :=
  ⟨1, fun _ => 1, fun _ => 1, 1, 1, fun a => a, fun a => a, 1, 1⟩

/-- Witness for C1: kernel size 2, one block of dilation 1, identity
activations, over two timesteps of the signal t. -/
theorem C1_mode_equivalence_witness :
    1 ≤ 2 ∧ (∀ b ∈ [blkW], 1 ≤ b.d) ∧
      (runM (modelStep 2 (fun a => a) 1 [blkW]) (initStacks 2 [blkW])
          (stream2 (fun t => (t : ℚ)) (fun _ => 0) 0 2)).1 =
        (List.range 2).map (parPreact 2 (fun a => a) 1 [blkW] (fun t => (t : ℚ)) (fun _ => 0)) :=
  ⟨by decide, by decide,
    C1_mode_equivalence 2 (by decide) [blkW] (by decide) (fun a => a) 1
      (fun t => (t : ℚ)) (fun _ => 0) 2⟩

end VocoderWavenet
